import Mathlib

/-!
Shallow embedding of the Yokohama nursery-tracker data pipeline
(`src/common.js` and the quote-aware variant in `src/unnamed/part_001`).

Modelling conventions:
* JavaScript string values are modelled as Lean `String`.  The values flowing
  through the functions under study are strings read from CSV/JSON; `null` and
  `undefined` behave exactly like `""` under both the `||` operator (falsy) and
  `safeStr` (mapped to `""`), so they are represented by `""`.
* A JavaScript object built by successive `obj[k] = v` assignments (and a
  `Map` built by `set`) is modelled as an association list with in-place
  overwrite (`setK`), which preserves JS insertion-order/overwrite semantics.
* `fetch` failures are modelled by passing the fetched text as
  `Except String String` into the function that consumed it.
-/

namespace Nursery

/-- JS `String.prototype.trim` predicate: whitespace characters. -/
def isWS (c : Char) : Bool := c.isWhitespace

/-- Trim whitespace from both ends of a character list. -/
def trimList (l : List Char) : List Char :=
  ((l.dropWhile isWS).reverse.dropWhile isWS).reverse

/-- JS `s.trim()`. -/
def jsTrim (s : String) : String := String.mk (trimList s.data)

/-- JS `a || b` on string values: a non-empty string is truthy. -/
def jsOr (a b : String) : String := if a = "" then b else a

/-- A JS object with string-valued properties, as an insertion-ordered
association list. -/
abbrev Obj := List (String × String)

/-- JS property assignment `m[k] = v` / `Map.set(k, v)`: overwrite in place if
the key is present, else append. -/
def setK {α : Type} : List (String × α) → String → α → List (String × α)
  | [], k, v => [(k, v)]
  | (k', v') :: rest, k, v =>
      if k' = k then (k', v) :: rest else (k', v') :: setK rest k v

/-- JS property/`Map` read: the value at a key, if present. -/
def lookupK {α : Type} : List (String × α) → String → Option α
  | [], _ => none
  | (k', v) :: rest, k => if k' = k then some v else lookupK rest k

/-- `safeStr(o.k)`: reading a possibly-absent property, `undefined ↦ ""`. -/
def objGet (o : Obj) (k : String) : String := (lookupK o k).getD ""

/-- `text.replace(/\r\n/g,"\n").replace(/\r/g,"\n")`: normalize line endings
(CRLF and lone CR both become LF). -/
def normalizeNL : List Char → List Char
  | [] => []
  | [c] => [if c = '\r' then '\n' else c]
  | c :: d :: rest =>
      if c = '\r' then
        if d = '\n' then '\n' :: normalizeNL rest
        else '\n' :: normalizeNL (d :: rest)
      else c :: normalizeNL (d :: rest)

/-- JS `s.split(sep)` for a one-character separator (`"".split` gives `[""]`). -/
def splitCh (sep : Char) : List Char → List (List Char)
  | [] => [[]]
  | c :: rest =>
      let r := splitCh sep rest
      if c = sep then [] :: r
      else
        match r with
        | x :: xs => (c :: x) :: xs
        | [] => [[c]]

/-- The row-object construction shared by both parsers:
`obj[header[j]] = (cols[j] ?? "").trim()` for each header index `j`. -/
def mkObjAux : List String → List String → Obj → Obj
  | [], _, o => o
  | h :: hs, [], o => mkObjAux hs [] (setK o h (jsTrim ""))
  | h :: hs, c :: cs, o => mkObjAux hs cs (setK o h (jsTrim c))

def mkObj (header cols : List String) : Obj := mkObjAux header cols []

/-- `parseCSV` from `src/common.js`: naive split on `","` per line, no quote
handling; blank lines dropped; header and cells trimmed. -/
def parseCSVnaive (text : String) : List Obj :=
  let lines := ((splitCh '\n' (normalizeNL text.data)).map String.mk).filter
      (fun l => jsTrim l ≠ "")
  match lines with
  | [] => []
  | h :: rest =>
      let header := ((splitCh ',' h.data).map String.mk).map jsTrim
      rest.map (fun line => mkObj header ((splitCh ',' line.data).map String.mk))

/-- End-of-row handling shared by the `"\n"` case and the end of input in the
quote-aware parser: `row.push(field)`, then keep the row unless every cell is
blank after trimming. -/
def finishRow (field : String) (row : List String) (rows : List (List String)) :
    List (List String) :=
  let row' := row ++ [field]
  if row'.any (fun v => jsTrim v ≠ "") then rows ++ [row'] else rows

/-- The character loop of the RFC4180-ish `parseCSV` from
`src/unnamed/part_001`, with state `(inQuotes, field, row, rows)`. -/
def csvLoop : List Char → Bool → String → List String → List (List String) →
    List (List String)
  | [], _, field, row, rows => finishRow field row rows
  | c :: rest, true, field, row, rows =>
      if c = '"' then
        match rest with
        | [] => finishRow field row rows
        | d :: rest' =>
            if d = '"' then csvLoop rest' true (field.push '"') row rows
            else csvLoop (d :: rest') false field row rows
      else csvLoop rest true (field.push c) row rows
  | c :: rest, false, field, row, rows =>
      if c = '"' then csvLoop rest true field row rows
      else if c = ',' then csvLoop rest false "" (row ++ [field]) rows
      else if c = '\n' then csvLoop rest false "" [] (finishRow field row rows)
      else csvLoop rest false (field.push c) row rows

/-- `parseCSV` from `src/unnamed/part_001`: quote-aware parsing (quoted fields
may contain the delimiter and line breaks, doubled quotes are literal quotes),
then header extraction and row objects as in the source. -/
def parseCSVq (text : String) : List Obj :=
  let rows := csvLoop (normalizeNL text.data) false "" [] []
  match rows with
  | [] => []
  | h :: rest =>
      let header := h.map jsTrim
      rest.map (fun cols => mkObj header cols)

/-- One iteration of the `Map`-building loop of `loadMaster`: skip a row whose
trimmed `facility_id` is blank (`if(!id) continue`), otherwise `mp.set(id, r)`. -/
def mStep (mp : List (String × Obj)) (r : Obj) : List (String × Obj) :=
  let id := jsTrim (objGet r "facility_id")
  if id = "" then mp else setK mp id r

/-- The `Map`-building loop of `loadMaster` over the parsed rows. -/
def buildMaster (rows : List Obj) : List (String × Obj) :=
  rows.foldl mStep []

/-- `loadMaster` (the `src/unnamed/part_001` variant): parse the fetched CSV
into an id-keyed map; on a fetch failure the `catch` block logs a warning and
returns an empty map. -/
def loadMaster (fetched : Except String String) : List (String × Obj) :=
  match fetched with
  | Except.error _ => []
  | Except.ok csv => buildMaster (parseCSVq csv)

/-- A Snapshot facility entry (one element of `data.facilities` in a monthly
JSON document), restricted to the string fields the merge reads or passes
through. -/
structure Fac where
  id : String := ""
  name : String := ""
  phone : String := ""
  website : String := ""
  address : String := ""
  nearest_station : String := ""
  walk_minutes : String := ""
  map_url : String := ""
  mapUrl : String := ""
deriving DecidableEq, Repr

/-- The per-facility merge inside `loadMonthFacilities`: spread of `f`
(`...f`, so `id`, `name`, `phone`, `website` are carried over unchanged),
then the display fields computed with Snapshot-over-Master precedence via
JS `||`, with the legacy `station` fallback and the legacy `mapUrl` alias. -/
def mergeFacility (f : Fac) (m : Obj) : Fac :=
  { f with
    address := jsOr f.address (jsOr (objGet m "address") "")
    nearest_station :=
      jsOr f.nearest_station
        (jsOr (objGet m "nearest_station") (jsOr (objGet m "station") ""))
    walk_minutes := jsOr f.walk_minutes (jsOr (objGet m "walk_minutes") "")
    map_url := jsOr f.map_url (jsOr (objGet m "map_url") "")
    mapUrl := jsOr f.map_url (jsOr (objGet m "map_url") "") }

/-- The facility-list part of `loadMonthFacilities`: each Snapshot entry is
merged with the Master record found under its id (`master.get(id) || {}`). -/
def loadMonthFacilities (facs : List Fac) (master : List (String × Obj)) :
    List Fac :=
  facs.map (fun f => mergeFacility f ((lookupK master f.id).getD []))

/-! ### Concrete records used by counterexamples and witnesses -/

/-- A Snapshot entry whose address is whitespace-only (truthy in JS, blank
after trimming). -/
def facWS : Fac := { address := " " }

/-- A Master row carrying only an address. -/
def masterKikuna : Obj := [("address", "Kikuna Station")]

/-- A Snapshot entry with an empty phone and website. -/
def facNoPhone : Fac := { id := "A" }

/-- A Master row carrying a phone number and a website. -/
def masterPhone : Obj :=
  [("phone", "045-111-2222"), ("website", "https://example.jp")]

/-- A Master row carrying only the legacy `station` spelling. -/
def masterLegacyStation : Obj := [("station", "Kikuna Station")]

/-- Two master-table rows sharing the `facility_id` `"A"`. -/
def mRow1 : Obj := [("facility_id", "A"), ("address", "X")]

def mRow2 : Obj := [("facility_id", "A"), ("address", "Y")]

/-! ### Helper lemmas -/

theorem jsOr_absorb (a b : String) : jsOr (jsOr a b) b = jsOr a b := by
  unfold jsOr
  split_ifs <;> simp_all

theorem mergeFacility_id (f : Fac) (m : Obj) : (mergeFacility f m).id = f.id := rfl

theorem mergeFacility_idem (f : Fac) (m : Obj) :
    mergeFacility (mergeFacility f m) m = mergeFacility f m := by
  simp [mergeFacility, jsOr_absorb]

theorem dropWhile_head_false {α : Type} (p : α → Bool) :
    ∀ (l : List α) (c : α) (cs : List α), l.dropWhile p = c :: cs → p c = false := by
  intro l
  induction l with
  | nil => intro c cs h; simp at h
  | cons a as ih =>
    intro c cs h
    by_cases hpa : p a
    · rw [List.dropWhile_cons, if_pos hpa] at h
      exact ih c cs h
    · rw [List.dropWhile_cons, if_neg hpa] at h
      cases h
      simpa using hpa

theorem dropWhile_head_id {α : Type} (p : α → Bool) (l : List α) (c : α)
    (h1 : l.head? = some c) (h2 : p c = false) : l.dropWhile p = l := by
  cases l with
  | nil => rfl
  | cons a as =>
    have : a = c := by simpa using h1
    subst this
    rw [List.dropWhile_cons, if_neg (by simp [h2])]

theorem dropWhile_idem {α : Type} (p : α → Bool) (l : List α) :
    (l.dropWhile p).dropWhile p = l.dropWhile p := by
  cases hD : l.dropWhile p with
  | nil => rfl
  | cons c cs =>
    have hc := dropWhile_head_false p l c cs hD
    rw [List.dropWhile_cons, if_neg (by simp [hc])]

theorem getLast?_dropWhile {α : Type} (p : α → Bool) :
    ∀ l : List α, l.dropWhile p ≠ [] → (l.dropWhile p).getLast? = l.getLast? := by
  intro l
  induction l with
  | nil => intro h; simp at h
  | cons a as ih =>
    intro h
    by_cases hpa : p a
    · rw [List.dropWhile_cons, if_pos hpa] at h ⊢
      rw [ih h]
      have hasne : as ≠ [] := by
        intro he
        rw [he] at h
        simp at h
      cases as with
      | nil => exact absurd rfl hasne
      | cons b bs => rw [List.getLast?_cons_cons]
    · rw [List.dropWhile_cons, if_neg hpa]

theorem dropWhile_trim_aux {α : Type} (p : α → Bool) (X : List α) :
    (((X.dropWhile p).reverse.dropWhile p).reverse).dropWhile p =
      ((X.dropWhile p).reverse.dropWhile p).reverse := by
  by_cases hB : (X.dropWhile p).reverse.dropWhile p = []
  · rw [hB]; rfl
  · have hA : X.dropWhile p ≠ [] := by
      intro h
      rw [h] at hB
      simp at hB
    obtain ⟨a, as, hAc⟩ := List.exists_cons_of_ne_nil hA
    have hpa : p a = false := dropWhile_head_false p X a as hAc
    have hh : ((((X.dropWhile p).reverse.dropWhile p).reverse)).head? = some a := by
      rw [List.head?_reverse, getLast?_dropWhile p _ hB, List.getLast?_reverse,
        hAc]
      rfl
    exact dropWhile_head_id p _ a hh hpa

theorem trimList_idem (l : List Char) : trimList (trimList l) = trimList l := by
  unfold trimList
  rw [dropWhile_trim_aux, List.reverse_reverse]
  exact dropWhile_trim_aux isWS l

theorem jsTrim_idem (s : String) : jsTrim (jsTrim s) = jsTrim s := by
  unfold jsTrim
  rw [show (String.mk (trimList s.data)).data = trimList s.data from rfl, trimList_idem]

theorem getLast?_cons_or {α : Type} (l : List α) :
    ∀ a : α, (a :: l).getLast? = l.getLast?.or (some a) := by
  induction l with
  | nil => intro a; rfl
  | cons b bs ih =>
    intro a
    calc (a :: b :: bs).getLast? = (b :: bs).getLast? := List.getLast?_cons_cons
      _ = bs.getLast?.or (some b) := ih b
      _ = bs.getLast?.or ((some b).or (some a)) := by rw [Option.or_some]
      _ = (bs.getLast?.or (some b)).or (some a) := (Option.or_assoc).symm
      _ = (b :: bs).getLast?.or (some a) := by rw [ih b]

theorem lookupK_setK {α : Type} (k k' : String) (v : α) :
    ∀ m : List (String × α),
      lookupK (setK m k v) k' = if k = k' then some v else lookupK m k' := by
  intro m
  induction m with
  | nil => simp [setK, lookupK]
  | cons p rest ih =>
    obtain ⟨k0, v0⟩ := p
    simp only [setK]
    by_cases h0 : k0 = k
    · subst h0
      simp only [if_pos rfl, lookupK]
      split_ifs <;> simp_all
    · rw [if_neg h0]
      simp only [lookupK]
      rw [ih]
      split_ifs <;> simp_all

theorem mem_keys_setK {α : Type} (k x : String) (v : α) :
    ∀ m : List (String × α),
      x ∈ (setK m k v).map Prod.fst ↔ x = k ∨ x ∈ m.map Prod.fst := by
  intro m
  induction m with
  | nil => simp [setK]
  | cons p rest ih =>
    obtain ⟨k0, v0⟩ := p
    by_cases h0 : k0 = k
    · subst h0
      simp [setK]
    · simp [setK, h0, ih]
      tauto

theorem nodup_keys_setK {α : Type} (k : String) (v : α) :
    ∀ m : List (String × α),
      (m.map Prod.fst).Nodup → ((setK m k v).map Prod.fst).Nodup := by
  intro m
  induction m with
  | nil => intro _; simp [setK]
  | cons p rest ih =>
    obtain ⟨k0, v0⟩ := p
    intro h
    simp only [List.map_cons, List.nodup_cons] at h
    by_cases h0 : k0 = k
    · subst h0
      have hset : setK ((k0, v0) :: rest) k0 v = (k0, v) :: rest := by
        simp [setK]
      rw [hset]
      simp only [List.map_cons, List.nodup_cons]
      exact h
    · simp only [setK, if_neg h0, List.map_cons, List.nodup_cons]
      refine ⟨?_, ih h.2⟩
      intro hmem
      rcases (mem_keys_setK k k0 v rest).1 hmem with he | hm
      · exact h0 he
      · exact h.1 hm

theorem buildMaster_invariant :
    ∀ (rows : List Obj) (acc : List (String × Obj)),
      ((acc.map Prod.fst).Nodup ∧ ∀ k ∈ acc.map Prod.fst, jsTrim k ≠ "") →
      (((rows.foldl mStep acc).map Prod.fst).Nodup ∧
        ∀ k ∈ (rows.foldl mStep acc).map Prod.fst, jsTrim k ≠ "") := by
  intro rows
  induction rows with
  | nil => intro acc h; exact h
  | cons r rest ih =>
    intro acc h
    rw [List.foldl_cons]
    apply ih
    simp only [mStep]
    by_cases hid : jsTrim (objGet r "facility_id") = ""
    · rw [if_pos hid]; exact h
    · rw [if_neg hid]
      refine ⟨nodup_keys_setK _ _ _ h.1, ?_⟩
      intro k hk
      rcases (mem_keys_setK _ k _ acc).1 hk with he | hm
      · rw [he, jsTrim_idem]; exact hid
      · exact h.2 k hm

theorem lookupK_foldl (id : String) (hid : id ≠ "") :
    ∀ (rows : List Obj) (acc : List (String × Obj)),
      lookupK (rows.foldl mStep acc) id =
        ((rows.filter (fun r => jsTrim (objGet r "facility_id") = id)).getLast?).or
          (lookupK acc id) := by
  intro rows
  induction rows with
  | nil => intro acc; simp
  | cons r rest ih =>
    intro acc
    rw [List.foldl_cons, ih]
    by_cases hP : jsTrim (objGet r "facility_id") = id
    · have hidr : ¬ jsTrim (objGet r "facility_id") = "" := by rw [hP]; exact hid
      rw [List.filter_cons_of_pos (by simpa using hP), getLast?_cons_or,
        Option.or_assoc]
      congr 1
      rw [Option.or_some]
      simp only [mStep]
      rw [if_neg hidr, lookupK_setK, if_pos hP]
    · rw [List.filter_cons_of_neg (by simpa using hP)]
      congr 1
      simp only [mStep]
      by_cases hblank : jsTrim (objGet r "facility_id") = ""
      · rw [if_pos hblank]
      · rw [if_neg hblank, lookupK_setK, if_neg hP]

theorem normalizeNL_no_cr :
    ∀ l : List Char, (∀ c ∈ l, c ≠ '\r') → normalizeNL l = l := by
  intro l
  induction l with
  | nil => intro _; rfl
  | cons c rest ih =>
    intro h
    have hc : c ≠ '\r' := h c (by simp)
    cases rest with
    | nil => simp [normalizeNL, hc]
    | cons d rest' =>
      have hstep : normalizeNL (c :: d :: rest') = c :: normalizeNL (d :: rest') := by
        simp [normalizeNL, hc]
      rw [hstep, ih (fun x hx => h x (List.mem_cons_of_mem _ hx))]

theorem csvLoop_no_quote :
    ∀ (l : List Char) (field : String) (row : List String)
      (rows : List (List String)), (∀ c ∈ l, c ≠ '"') →
      csvLoop l true field row rows =
        finishRow (String.mk (field.data ++ l)) row rows := by
  intro l
  induction l with
  | nil =>
    intro field row rows _
    simp [csvLoop]
  | cons c rest ih =>
    intro field row rows h
    have hc : c ≠ '"' := h c (by simp)
    have hstep : csvLoop (c :: rest) true field row rows =
        csvLoop rest true (field.push c) row rows := by
      rw [csvLoop.eq_def]
      simp [hc]
    rw [hstep, ih _ _ _ (fun x hx => h x (List.mem_cons_of_mem _ hx))]
    simp

/-! ### Claim theorems -/

/-- Claim C2 (counterexample): the merge uses JS truthiness, not emptiness
after trimming.  With Snapshot address `" "` (whitespace-only, so blank after
trimming) and Master address `"Kikuna Station"`, the claim predicts the merged
address is the Master's value, but the code keeps the whitespace-only Snapshot
value. -/
theorem merge_trim_counterexample :
    jsTrim facWS.address = "" ∧
    jsTrim (objGet masterKikuna "address") ≠ "" ∧
    (mergeFacility facWS masterKikuna).address ≠ objGet masterKikuna "address" ∧
    (mergeFacility facWS masterKikuna).address = " " := by
  decide

/-- Claim C2 (amended): for each of address, nearest station, walk minutes and
map URL, the merged record carries the Snapshot's value when it is non-empty
(JS truthiness, with no trimming), otherwise the Master's value when that is
non-empty (for nearest station, first `nearest_station`, then the legacy
`station`), otherwise the empty string. -/
theorem merge_precedence (f : Fac) (m : Obj) :
    (mergeFacility f m).address =
      (if f.address ≠ "" then f.address
       else if objGet m "address" ≠ "" then objGet m "address" else "") ∧
    (mergeFacility f m).nearest_station =
      (if f.nearest_station ≠ "" then f.nearest_station
       else if objGet m "nearest_station" ≠ "" then objGet m "nearest_station"
       else if objGet m "station" ≠ "" then objGet m "station" else "") ∧
    (mergeFacility f m).walk_minutes =
      (if f.walk_minutes ≠ "" then f.walk_minutes
       else if objGet m "walk_minutes" ≠ "" then objGet m "walk_minutes"
       else "") ∧
    (mergeFacility f m).map_url =
      (if f.map_url ≠ "" then f.map_url
       else if objGet m "map_url" ≠ "" then objGet m "map_url" else "") := by
  refine ⟨?_, ?_, ?_, ?_⟩ <;>
    · simp only [mergeFacility, jsOr]
      split_ifs <;> simp_all

/-- Claim C3 (counterexample): phone and website are not merged at all — the
spread `...f` carries the Snapshot's values through unchanged, so a non-empty
Master phone/website is dropped when the Snapshot's is empty. -/
theorem merge_drops_master_phone :
    objGet masterPhone "phone" ≠ "" ∧
    (mergeFacility facNoPhone masterPhone).phone = "" ∧
    objGet masterPhone "website" ≠ "" ∧
    (mergeFacility facNoPhone masterPhone).website = "" := by
  decide

/-- Claim C3 (amended): for the four fields the merge actually covers
(address, nearest station, walk minutes, map URL), if either source holds a
non-empty value then the merged record's value is non-empty; phone and website
are excluded because the code never reads them from the Master record. -/
theorem merge_nonempty (f : Fac) (m : Obj) :
    (f.address ≠ "" ∨ objGet m "address" ≠ "" →
      (mergeFacility f m).address ≠ "") ∧
    (f.nearest_station ≠ "" ∨ objGet m "nearest_station" ≠ "" →
      (mergeFacility f m).nearest_station ≠ "") ∧
    (f.walk_minutes ≠ "" ∨ objGet m "walk_minutes" ≠ "" →
      (mergeFacility f m).walk_minutes ≠ "") ∧
    (f.map_url ≠ "" ∨ objGet m "map_url" ≠ "" →
      (mergeFacility f m).map_url ≠ "") := by
  refine ⟨?_, ?_, ?_, ?_⟩ <;>
    · rintro (h | h) <;>
        · simp only [mergeFacility, jsOr]
          split_ifs <;> simp_all

theorem merge_nonempty_witness :
    ((facNoPhone.address ≠ "" ∨ objGet masterKikuna "address" ≠ "") ∧
      (mergeFacility facNoPhone masterKikuna).address ≠ "") ∧
    ((facWS.address ≠ "" ∨ objGet masterKikuna "address" ≠ "") ∧
      (mergeFacility facWS masterKikuna).address ≠ "") :=
  ⟨⟨Or.inr (by decide), (merge_nonempty facNoPhone masterKikuna).1
      (Or.inr (by decide))⟩,
   ⟨Or.inl (by decide), (merge_nonempty facWS masterKikuna).1
      (Or.inl (by decide))⟩⟩

/-- Claim C5: merging is pure and idempotent — feeding the merged facility
list back through the merge with the same Master map reproduces it exactly,
so a second application of the Reconciler accumulates no change. -/
theorem merge_idempotent (facs : List Fac) (master : List (String × Obj)) :
    loadMonthFacilities (loadMonthFacilities facs master) master =
      loadMonthFacilities facs master := by
  unfold loadMonthFacilities
  rw [List.map_map]
  apply List.map_congr_left
  intro f _
  simp only [Function.comp_apply, mergeFacility_id, mergeFacility_idem]

/-- Claim C6: when the Snapshot's nearest-station field is empty, the merged
nearest station is the Master's `nearest_station` if non-empty, else the
Master's legacy `station` if non-empty, else the empty string. -/
theorem merge_station_fallback (f : Fac) (m : Obj)
    (h : f.nearest_station = "") :
    (mergeFacility f m).nearest_station =
      (if objGet m "nearest_station" ≠ "" then objGet m "nearest_station"
       else if objGet m "station" ≠ "" then objGet m "station" else "") := by
  simp only [mergeFacility, jsOr, h]
  split_ifs <;> simp_all

theorem merge_station_fallback_witness :
    ({} : Fac).nearest_station = "" ∧
    (mergeFacility {} masterLegacyStation).nearest_station =
      "Kikuna Station" := by
  refine ⟨rfl, ?_⟩
  rw [merge_station_fallback {} masterLegacyStation rfl]
  decide

/-- Claim C7: every merged record's legacy `mapUrl` alias equals its resolved
`map_url`; both are computed by the same Snapshot-over-Master merge. -/
theorem merge_mapUrl_alias (f : Fac) (m : Obj) :
    (mergeFacility f m).mapUrl = (mergeFacility f m).map_url := rfl

/-- Claim C1: the quote-aware parser handles a quoted field containing the
delimiter — and likewise one containing an embedded line break — as a single
field of a single logical row, reconstructing the content intact; in
particular the spec's example input parses to exactly one data row with
`id = "1"` and `name = "Sakura, East"`. -/
theorem parse_quoted_field :
    parseCSVq "id,name\n1,\"Sakura, East\"\n" =
      [[("id", "1"), ("name", "Sakura, East")]] ∧
    parseCSVq "id,name\n1,\"Sakura,\nEast\"\n" =
      [[("id", "1"), ("name", "Sakura,\nEast")]] := by
  constructor <;> rfl

/-- Claim C4: the naive delimiter-split parser of `src/common.js` and the
quote-aware parser of `src/unnamed/part_001` disagree on a quoted field
containing the delimiter, so the two `parseCSV` implementations are not
extensionally equal. -/
theorem parsers_disagree :
    parseCSVnaive "a,b\n\"x,y\",z\n" ≠ parseCSVq "a,b\n\"x,y\",z\n" := by
  decide

/-- Claim C8 (counterexample): an unterminated quoted field does not raise any
error — the parser returns an ordinary row list, identical to the one produced
by the properly terminated input, so no error condition is observable. -/
theorem parse_unterminated_counterexample :
    parseCSVq "a\n\"x" = [[("a", "x")]] ∧
    parseCSVq "a\n\"x\"" = [[("a", "x")]] := by
  constructor <;> rfl

/-- Claim C8 (amended): the quote-aware parser never raises an error.  On an
input whose final quoted field is left unterminated it degrades to best
effort: the entire remaining text becomes the field's content, and parsing
completes normally.  Stated for a header `a` followed by an unterminated
quoted field `s` (free of quotes and carriage returns): the result is the
single row mapping `a` to the trimmed remainder, or no row when the remainder
is blank. -/
theorem parse_unterminated_best_effort (s : String)
    (hq : ∀ c ∈ s.data, c ≠ '"') (hr : ∀ c ∈ s.data, c ≠ '\r') :
    parseCSVq ("a\n\"" ++ s) =
      if jsTrim s = "" then [] else [[("a", jsTrim s)]] := by
  have hdata : ("a\n\"" ++ s).data = 'a' :: '\n' :: '"' :: s.data := by
    rw [String.data_append]
    rfl
  have hnorm : normalizeNL ('a' :: '\n' :: '"' :: s.data) =
      'a' :: '\n' :: '"' :: s.data := by
    apply normalizeNL_no_cr
    intro c hcmem
    simp only [List.mem_cons] at hcmem
    rcases hcmem with rfl | rfl | rfl | hcs
    · decide
    · decide
    · decide
    · exact hr c hcs
  have h1 : csvLoop ('a' :: '\n' :: '"' :: s.data) false "" [] [] =
      csvLoop s.data true "" [] [["a"]] := rfl
  have hmk : String.mk ("".data ++ s.data) = s := by
    cases s
    rfl
  simp only [parseCSVq]
  rw [hdata, hnorm, h1, csvLoop_no_quote s.data "" [] [["a"]] hq, hmk]
  by_cases hs : jsTrim s = ""
  · rw [if_pos hs]
    have hfin : finishRow s [] [["a"]] = [["a"]] := by
      simp [finishRow, hs]
    rw [hfin]
    rfl
  · rw [if_neg hs]
    have hfin : finishRow s [] [["a"]] = [["a"], [s]] := by
      simp [finishRow, hs]
    rw [hfin]
    show [mkObj (["a"].map jsTrim) [s]] = [[("a", jsTrim s)]]
    simp only [List.map_cons, List.map_nil, mkObj, mkObjAux, setK]
    rfl

theorem parse_unterminated_best_effort_witness :
    (∀ c ∈ ("x" : String).data, c ≠ '"') ∧
    (∀ c ∈ ("x" : String).data, c ≠ '\r') ∧
    parseCSVq ("a\n\"" ++ "x") = [[("a", "x")]] := by
  refine ⟨by decide, by decide, ?_⟩
  rw [parse_unterminated_best_effort "x" (by decide) (by decide)]
  decide

/-- Claim C9 (counterexample): on a file-level load failure the `catch` block
in `loadMaster` swallows the error and returns the empty identifier-to-record
mapping instead of propagating it. -/
theorem loadMaster_swallows_error :
    loadMaster (Except.error "Failed to load data/master_facilities.csv") =
      [] := rfl

/-- Claim C9 (amended): whenever fetching the master table fails at the file
level, `loadMaster` catches the error, logs a warning, and continues by
returning an empty identifier-to-record mapping (the stage does not abort). -/
theorem loadMaster_error_empty (e : String) :
    loadMaster (Except.error e) = [] := rfl

/-- Claim C10: for every master table, the mapping built by `loadMaster` has
pairwise-distinct keys, none of which is blank after trimming, and looking up
a non-blank identifier returns the last input row whose trimmed `facility_id`
equals it (later rows overwrite earlier ones via `Map.set`). -/
theorem buildMaster_unique_lastwins (rows : List Obj) :
    ((buildMaster rows).map Prod.fst).Nodup ∧
    (∀ k ∈ (buildMaster rows).map Prod.fst, jsTrim k ≠ "") ∧
    (∀ id : String, id ≠ "" →
      lookupK (buildMaster rows) id =
        (rows.filter (fun r => jsTrim (objGet r "facility_id") = id)).getLast?) := by
  refine ⟨(buildMaster_invariant rows [] (by simp)).1,
    (buildMaster_invariant rows [] (by simp)).2, ?_⟩
  intro id hid
  rw [buildMaster, lookupK_foldl id hid rows []]
  rw [show lookupK ([] : List (String × Obj)) id = none from rfl, Option.or_none]

theorem buildMaster_unique_lastwins_witness :
    ("A" : String) ≠ "" ∧
    lookupK (buildMaster [mRow1, mRow2]) "A" = some mRow2 := by
  refine ⟨by decide, ?_⟩
  rw [(buildMaster_unique_lastwins [mRow1, mRow2]).2.2 "A" (by decide)]
  decide

end Nursery
